import Mathlib

/-!
Verification of the areal-interpolation core of the DC historic-districts
repository (scripts `2_2020_analysis.py` and
`1_time_series_analysis_1970_2020.py`).

The pandas/geopandas pipelines are shallowly embedded: float cells are
modelled by `PVal` (an exact rational magnitude plus the IEEE special
values NaN / +inf / -inf, with numpy's arithmetic on them), dataframes by
lists of records, the geometric overlay by its combinatorial outcome (for
each census tract, the list of (historic district, slice area) pairs it
intersects plus the uncovered remainder), and `groupby(...).sum()` by
key-deduplication with a NaN-skipping sum, as pandas performs it.
-/

namespace DCHist

/-- A pandas/numpy float cell: an exact rational magnitude, or one of the
IEEE special values NaN, +inf, -inf produced by numpy arithmetic. -/
inductive PVal where
  | num (q : ℚ)
  | nan
  | inf
  | ninf
deriving DecidableEq

namespace PVal

/-- numpy addition on float cells (NaN absorbing, inf + (-inf) = NaN). -/
def add : PVal → PVal → PVal
  | num a, num b => num (a + b)
  | nan, _ => nan
  | _, nan => nan
  | inf, inf => inf
  | inf, ninf => nan
  | ninf, inf => nan
  | ninf, ninf => ninf
  | inf, num _ => inf
  | num _, inf => inf
  | ninf, num _ => ninf
  | num _, ninf => ninf

/-- numpy negation on float cells. -/
def neg : PVal → PVal
  | num a => num (-a)
  | nan => nan
  | inf => ninf
  | ninf => inf

/-- numpy subtraction on float cells. -/
def sub (a b : PVal) : PVal := a.add b.neg

/-- numpy multiplication on float cells (0 * inf = NaN, signs respected). -/
def mul : PVal → PVal → PVal
  | num a, num b => num (a * b)
  | nan, _ => nan
  | _, nan => nan
  | inf, inf => inf
  | inf, ninf => ninf
  | ninf, inf => ninf
  | ninf, ninf => inf
  | inf, num b => if b = 0 then nan else if 0 < b then inf else ninf
  | num a, inf => if a = 0 then nan else if 0 < a then inf else ninf
  | ninf, num b => if b = 0 then nan else if 0 < b then ninf else inf
  | num a, ninf => if a = 0 then nan else if 0 < a then ninf else inf

/-- numpy reciprocal on float cells: 1/0 = +inf, 1/inf = 0. -/
def inv : PVal → PVal
  | num a => if a = 0 then inf else num a⁻¹
  | nan => nan
  | inf => num 0
  | ninf => num 0

/-- numpy division on float cells: a/0 is NaN when a = 0, else a signed
infinity — never an exception. -/
def div (a b : PVal) : PVal := a.mul b.inv

end PVal

/-- pandas `groupby(...).sum()` semantics for one group: NaN entries are
skipped, an all-NaN (or empty) group sums to 0 (`min_count=0`). -/
def nansum (l : List PVal) : PVal :=
  l.foldl (fun acc v => if v = PVal.nan then acc else acc.add v) (PVal.num 0)

/-! ## 2020 analysis (`2_2020_analysis.py`) -/

/-- One row of `pop_by_tract_2020.csv` after the renames of script 1:
the five raw attribute cells of a census tract (any of which the loader
may have turned into NaN for the census missing-data sentinel). -/
structure PopRow where
  pop_total : PVal
  pop_white : PVal
  housing_total : PVal
  housing_owned : PVal
  housing_rental : PVal
deriving DecidableEq

/-- A `PopRow` whose cells are all plain numbers. -/
def mkRow (T W HT HO HR : ℚ) : PopRow :=
  ⟨.num T, .num W, .num HT, .num HO, .num HR⟩

/-- The six columns of the `pop` dataframe after line 119 added
`pop_poc`; the loop `for v in pop.columns` iterates over exactly these. -/
inductive Col where
  | pop_total
  | pop_white
  | housing_total
  | housing_owned
  | housing_rental
  | pop_poc
deriving DecidableEq, Fintype

/-- Column lookup on a tract row; `pop_poc` is the derived column
`pop['pop_total'] - pop['pop_white']` of line 119. -/
def PopRow.col (r : PopRow) : Col → PVal
  | .pop_total => r.pop_total
  | .pop_white => r.pop_white
  | .housing_total => r.housing_total
  | .housing_owned => r.housing_owned
  | .housing_rental => r.housing_rental
  | .pop_poc => r.pop_total.sub r.pop_white

/-- A census tract: identifier, planar area (`tracts.area`, line 137) and
its attribute row (merged in at line 145). -/
structure Tract where
  geoid : String
  tract_area : ℚ
  row : PopRow
deriving DecidableEq

/-- A historic district: identifier and designation year, NaN when no
designation date was found. -/
structure District where
  hid : String
  des_year : PVal
deriving DecidableEq

/-- Line 104: `tot_years = today.year - designation_dates['year']` —
years since designation measured from the run date, NaN propagating when
the designation year is missing. -/
def tot_years (todayYear : ℚ) (d : District) : PVal :=
  (PVal.num todayYear).sub d.des_year

/-- One row of the `slices` dataframe (union overlay, after
`dropna(subset='GEOID')` and `fillna('NA')` on the district id): the two
identifiers, the district's `tot_years` cell, the slice's own area
(`slices.area`, line 166), the owning tract's cached area and the tract's
attribute row carried through the overlay. -/
structure Slice where
  geoid : String
  hist_district_ID : String
  tyrs : PVal
  s_area : ℚ
  tract_area : ℚ
  row : PopRow
deriving DecidableEq

/-- Combinatorial outcome of the geometric union overlay for one tract:
the districts it intersects with the areas of the intersections, plus the
area of the tract not covered by any district. -/
structure TractCover where
  tract : Tract
  cover : List (District × ℚ)
  uncov : ℚ
deriving DecidableEq

/-- The slices a tract contributes after `overlay(how='union')`,
`dropna(subset='GEOID')` (district-only pieces carry no GEOID and are
dropped) and `fillna('NA')`: one slice per intersected district, and, if
the tract is not fully covered, one slice with the `'NA'` sentinel whose
district-side cells (here `tot_years`) are NaN. -/
def slicesOfTract (todayYear : ℚ) (tc : TractCover) : List Slice :=
  (tc.cover.map fun p =>
    ⟨tc.tract.geoid, p.1.hid, tot_years todayYear p.1, p.2,
      tc.tract.tract_area, tc.tract.row⟩)
  ++ (if 0 < tc.uncov then
      [⟨tc.tract.geoid, "NA", PVal.nan, tc.uncov,
        tc.tract.tract_area, tc.tract.row⟩]
    else [])

/-- All slices of the run (line 154), one tract after another. -/
def slices (todayYear : ℚ) (inputs : List TractCover) : List Slice :=
  (inputs.map (slicesOfTract todayYear)).flatten

/-- Line 169: `area_share = slices['s_area'] / slices['tract_area']` —
numpy float division, so a zero tract area yields NaN or ±inf, not an
exception. -/
def area_share (s : Slice) : PVal :=
  (PVal.num s.s_area).div (PVal.num s.tract_area)

/-- One row of the `realloc` dataframe after `reset_index` (line 178):
the index columns and the six allocated value columns. -/
structure ReallocRow where
  geoid : String
  hist_district_ID : String
  tyrs : PVal
  vals : Col → PVal
deriving DecidableEq

/-- Lines 172–175: `realloc[v] = slices[v].mul(area_share)` for every
column `v` of `pop`. -/
def reallocOfSlice (s : Slice) : ReallocRow :=
  ⟨s.geoid, s.hist_district_ID, s.tyrs, fun c => (s.row.col c).mul (area_share s)⟩

/-- The full `realloc` dataframe of the 2020 analysis. -/
def realloc (todayYear : ℚ) (inputs : List TractCover) : List ReallocRow :=
  (slices todayYear inputs).map reallocOfSlice

/-- Lines 183–186: `fillna({'hist_district_ID':'NA', 'tot_years':-666666})`
(the district id was already filled at line 160). -/
def fillTot (r : ReallocRow) : ReallocRow :=
  { r with tyrs := if r.tyrs = PVal.nan then PVal.num (-666666) else r.tyrs }

/-- The `groupby(['hist_district_ID','tot_years'])` key of a row. -/
def ReallocRow.key (r : ReallocRow) : String × PVal := (r.hist_district_ID, r.tyrs)

/-- One row of `by_hist_district` after the groupby-sum of line 189. -/
structure AggRow where
  hist_district_ID : String
  tyrs : PVal
  vals : Col → PVal
deriving DecidableEq

/-- The distinct group keys of the rows; pandas silently drops rows whose
key contains NaN (`groupby` default `dropna=True`). Group order is not
part of any verified property. -/
def groupKeys (rows : List ReallocRow) : List (String × PVal) :=
  ((rows.map ReallocRow.key).filter fun k => k.2 ≠ PVal.nan).dedup

/-- Line 189: `by_hist_district = realloc.fillna(values).groupby(
['hist_district_ID','tot_years']).sum()` — per key, the NaN-skipping sum
of each value column over the rows with that key. -/
def by_hist_district (todayYear : ℚ) (inputs : List TractCover) : List AggRow :=
  let rows := (realloc todayYear inputs).map fillTot
  (groupKeys rows).map fun k =>
    ⟨k.1, k.2, fun c => nansum ((rows.filter fun r => r.key = k).map (fun r => r.vals c))⟩

/-- Line 197: `pct_poc = 100*by_hist_district['pop_poc'] /
by_hist_district['pop_total']`. -/
def pct_poc (a : AggRow) : PVal :=
  ((PVal.num 100).mul (a.vals .pop_poc)).div (a.vals .pop_total)

/-- Line 200: `pct_rental = 100*by_hist_district['housing_rental'] /
by_hist_district['housing_total']`. -/
def pct_rental (a : AggRow) : PVal :=
  ((PVal.num 100).mul (a.vals .housing_rental)).div (a.vals .housing_total)

/-! ## Time-series analysis (`1_time_series_analysis_1970_2020.py`) -/

/-- The five NHGIS race columns of one (tract, year) row after the
renames of lines 94–100; `pd.to_numeric(errors='coerce')` may have left
NaN cells. -/
structure RaceRow where
  pop_white : PVal
  pop_black : PVal
  pop_native : PVal
  pop_aapi_other : PVal
  pop_two_races : PVal
deriving DecidableEq

/-- Line 103: `pop['pop_two_races'] = pop['pop_two_races'].fillna(0)`. -/
def fillTwoRaces (r : RaceRow) : RaceRow :=
  { r with pop_two_races :=
      if r.pop_two_races = PVal.nan then PVal.num 0 else r.pop_two_races }

/-- Line 115: `total_pop` is the sum of the five race columns (computed
after the line-103 fill). -/
def total_pop (r : RaceRow) : PVal :=
  ((((r.pop_white.add r.pop_black).add r.pop_native).add
      r.pop_aapi_other).add r.pop_two_races)

/-- The three columns kept at line 129 (after dropping `YEAR`); these are
exactly the columns the allocation loop of line 217 iterates over. -/
inductive TSCol where
  | total_pop
  | pop_poc
  | pop_white
deriving DecidableEq, Fintype

/-- Column lookup on a (filled) race row: `total_pop` from line 115,
`pop_poc = total_pop - pop_white` from line 118. -/
def RaceRow.col (r : RaceRow) : TSCol → PVal
  | .total_pop => total_pop r
  | .pop_poc => (total_pop r).sub r.pop_white
  | .pop_white => r.pop_white

/-- A census tract of one observation year in the time-series run:
identifier, cached area, and its raw race row for that year. -/
structure TSTract where
  geoid : String
  tract_area : ℚ
  race : RaceRow
deriving DecidableEq

/-- One row of `slices_dic[year]` (intersection overlay): identifiers,
the district's `des_year` and `tot_years` cells, the slice area, the
tract area and the tract's (filled) race row. -/
structure TSSlice where
  geoid : String
  hist_district_ID : String
  des_year : PVal
  tyrs : PVal
  s_area : ℚ
  tract_area : ℚ
  race : RaceRow
deriving DecidableEq

/-- Combinatorial outcome of the intersection overlay for one tract: the
districts it intersects and the areas of the intersections (uncovered
tract area produces no slice under `how='intersection'`). -/
structure TSTractCover where
  tract : TSTract
  cover : List (District × ℚ)
deriving DecidableEq

/-- The slices one tract contributes at line 192
(`overlay(hist_districts, how='intersection')`); `tot_years` is the cell
written into `hist_districts.gpkg` by the 2020 script (line 104 there),
hence `todayYear - des_year`. -/
def tsSlicesOfTract (todayYear : ℚ) (tc : TSTractCover) : List TSSlice :=
  tc.cover.map fun p =>
    ⟨tc.tract.geoid, p.1.hid, p.1.des_year, tot_years todayYear p.1, p.2,
      tc.tract.tract_area, fillTwoRaces tc.tract.race⟩

/-- Line 196: `slices_dic[year].dropna(subset='tot_years')` — slices of
districts with no designation-year record are dropped inside the
pipeline. -/
def tsSlices (todayYear : ℚ) (inputs : List TSTractCover) : List TSSlice :=
  ((inputs.map (tsSlicesOfTract todayYear)).flatten).filter
    fun s => s.tyrs ≠ PVal.nan

/-- Line 205: `area_share_dic[year] = slices['s_area'] /
slices['tract_area']`. -/
def ts_area_share (s : TSSlice) : PVal :=
  (PVal.num s.s_area).div (PVal.num s.tract_area)

/-- One row of `realloc_dic[year]` after `reset_index` (line 221). -/
structure TSReallocRow where
  geoid : String
  hist_district_ID : String
  des_year : PVal
  vals : TSCol → PVal
deriving DecidableEq

/-- Lines 217–218: `realloc_dic[year][v] = slices_dic[year][v]
.mul(area_share_dic[year])` for the three population columns. -/
def tsReallocOfSlice (s : TSSlice) : TSReallocRow :=
  ⟨s.geoid, s.hist_district_ID, s.des_year,
    fun c => (s.race.col c).mul (ts_area_share s)⟩

/-- The `realloc_dic[year]` dataframe. -/
def tsRealloc (todayYear : ℚ) (inputs : List TSTractCover) : List TSReallocRow :=
  (tsSlices todayYear inputs).map tsReallocOfSlice

/-- The `groupby(['hist_district_ID','des_year'])` key of a row. -/
def TSReallocRow.key (r : TSReallocRow) : String × PVal :=
  (r.hist_district_ID, r.des_year)

/-- One row of `by_hist_district_dic[year]` after the groupby-sum of
line 226 (with `des_year` pulled back out of the index at line 233). -/
structure TSAggRow where
  hist_district_ID : String
  des_year : PVal
  vals : TSCol → PVal
deriving DecidableEq

/-- Distinct group keys; as in the 2020 run, pandas drops NaN keys. -/
def tsGroupKeys (rows : List TSReallocRow) : List (String × PVal) :=
  ((rows.map TSReallocRow.key).filter fun k => k.2 ≠ PVal.nan).dedup

/-- Line 226: `by_hist_district_dic[year] =
realloc_dic[year].groupby(['hist_district_ID','des_year']).sum()`. -/
def by_hist_district_dic (todayYear : ℚ) (inputs : List TSTractCover) :
    List TSAggRow :=
  let rows := tsRealloc todayYear inputs
  (tsGroupKeys rows).map fun k =>
    ⟨k.1, k.2, fun c => nansum ((rows.filter fun r => r.key = k).map (fun r => r.vals c))⟩

/-- One row of the year's block of `by_hist_district_1970_2020`: the
aggregated columns plus the `year` column (line 236) and
`years_since_des` (line 241), with `des_year` dropped (line 244). -/
structure TSOutRow where
  hist_district_ID : String
  vals : TSCol → PVal
  year : PVal
  years_since_des : PVal
deriving DecidableEq

/-- Lines 236–244: attach `year`, compute `years_since_des =
year - des_year`, drop `des_year`. -/
def tsOutOfAgg (year : ℚ) (a : TSAggRow) : TSOutRow :=
  ⟨a.hist_district_ID, a.vals, PVal.num year, (PVal.num year).sub a.des_year⟩

/-- One observation year's block of the long-format output table; the
final table (line 248) is the concatenation of these blocks. -/
def tsYearTable (todayYear year : ℚ) (inputs : List TSTractCover) :
    List TSOutRow :=
  (by_hist_district_dic todayYear inputs).map (tsOutOfAgg year)

/-- Line 255: `perc_poc = 100*(total_pop - pop_white)/total_pop`,
recomputed from the aggregated columns. -/
def perc_poc (r : TSOutRow) : PVal :=
  ((PVal.num 100).mul ((r.vals .total_pop).sub (r.vals .pop_white))).div
    (r.vals .total_pop)

/-- Line 258: `perc_white = 100*pop_white/total_pop`. -/
def perc_white (r : TSOutRow) : PVal :=
  ((PVal.num 100).mul (r.vals .pop_white)).div (r.vals .total_pop)

/-- The rational magnitude of a cell (0 for the special values); used
only to state sums of lists known to hold plain numbers. -/
def PVal.toQ : PVal → ℚ
  | .num q => q
  | _ => 0

/-- A derived percentage cell that satisfies the spec's domain contract:
NaN or a number in [0, 100]. -/
def pctDomain (v : PVal) : Prop :=
  v = PVal.nan ∨ ∃ p : ℚ, v = PVal.num p ∧ 0 ≤ p ∧ p ≤ 100

/-! ## Arithmetic bridge lemmas -/

namespace PVal

@[simp] theorem num_add_num (a b : ℚ) : (num a).add (num b) = num (a + b) := rfl

@[simp] theorem num_sub_num (a b : ℚ) : (num a).sub (num b) = num (a - b) := by
  simp [sub, neg, add, sub_eq_add_neg]

@[simp] theorem num_mul_num (a b : ℚ) : (num a).mul (num b) = num (a * b) := rfl

theorem num_div_num (a b : ℚ) (hb : b ≠ 0) :
    (num a).div (num b) = num (a / b) := by
  simp [div, inv, mul, hb, div_eq_mul_inv]

@[simp] theorem num_ne_nan (a : ℚ) : num a ≠ nan := by
  intro h
  exact PVal.noConfusion h

@[simp] theorem mul_nan (a : PVal) : a.mul nan = nan := by
  cases a <;> rfl

@[simp] theorem num_div_zero (a : ℚ) :
    (num a).div (num 0) = if a = 0 then nan else if 0 < a then inf else ninf := by
  simp [div, inv, mul]

theorem num_sub_eq_nan_iff (a : ℚ) (v : PVal) :
    (num a).sub v = nan ↔ v = nan := by
  cases v <;> simp [sub, neg, add]

end PVal

theorem nansum_go (l : List PVal) (h : ∀ v ∈ l, ∃ q : ℚ, v = PVal.num q) :
    ∀ a : ℚ,
      l.foldl (fun acc v => if v = PVal.nan then acc else acc.add v) (PVal.num a)
        = PVal.num (a + (l.map PVal.toQ).sum) := by
  induction l with
  | nil => intro a; simp
  | cons v t ih =>
    intro a
    obtain ⟨q, rfl⟩ := h v (List.mem_cons_self v t)
    have ht : ∀ w ∈ t, ∃ q : ℚ, w = PVal.num q := fun w hw => h w (List.mem_cons_of_mem _ hw)
    simp only [List.foldl_cons, if_neg (PVal.num_ne_nan q), PVal.num_add_num]
    rw [ih ht (a + q)]
    simp [PVal.toQ, add_assoc]

/-- A list of plain numbers nansums to the plain sum of its magnitudes. -/
theorem nansum_eq_num (l : List PVal) (h : ∀ v ∈ l, ∃ q : ℚ, v = PVal.num q) :
    nansum l = PVal.num ((l.map PVal.toQ).sum) := by
  have := nansum_go l h 0
  simpa [nansum] using this

/-- An all-NaN list nansums to 0, exactly as pandas' group sum with
`min_count=0` does. -/
theorem nansum_all_nan (l : List PVal) (h : ∀ v ∈ l, v = PVal.nan) :
    nansum l = PVal.num 0 := by
  induction l with
  | nil => rfl
  | cons v t ih =>
    have hv := h v (List.mem_cons_self v t)
    have ht : ∀ w ∈ t, w = PVal.nan := fun w hw => h w (List.mem_cons_of_mem _ hw)
    simp [nansum, hv] at ih ⊢
    simpa [nansum] using ih ht

theorem nansum_map_num {α : Type} (g : α → ℚ) (xs : List α) :
    nansum (xs.map fun x => PVal.num (g x)) = PVal.num ((xs.map g).sum) := by
  rw [nansum_eq_num]
  · congr 1
    rw [List.map_map]
    congr 1
  · intro v hv
    obtain ⟨x, _, rfl⟩ := List.mem_map.mp hv
    exact ⟨g x, rfl⟩

/-! ## Plumbing lemmas about the pipeline dataframes -/

/-- The column values of an all-number tract row, as rationals. -/
def mkRowQ (T W HT HO HR : ℚ) : Col → ℚ
  | .pop_total => T
  | .pop_white => W
  | .housing_total => HT
  | .housing_owned => HO
  | .housing_rental => HR
  | .pop_poc => T - W

@[simp] theorem col_mkRow (T W HT HO HR : ℚ) (c : Col) :
    (mkRow T W HT HO HR).col c = PVal.num (mkRowQ T W HT HO HR c) := by
  cases c <;> simp [mkRow, PopRow.col, mkRowQ]

theorem mem_slicesOfTract {ty : ℚ} {tc : TractCover} {s : Slice}
    (hs : s ∈ slicesOfTract ty tc) :
    s.geoid = tc.tract.geoid ∧ s.tract_area = tc.tract.tract_area ∧
      s.row = tc.tract.row ∧
      (s.s_area = tc.uncov ∨ ∃ p ∈ tc.cover, s.s_area = p.2) := by
  rcases List.mem_append.mp hs with h | h
  · obtain ⟨p, hp, rfl⟩ := List.mem_map.mp h
    exact ⟨rfl, rfl, rfl, Or.inr ⟨p, hp, rfl⟩⟩
  · by_cases hu : 0 < tc.uncov
    · rw [if_pos hu] at h
      rcases List.mem_singleton.mp h with rfl
      exact ⟨rfl, rfl, rfl, Or.inl rfl⟩
    · rw [if_neg hu] at h
      exact absurd h (List.not_mem_nil s)

theorem mem_realloc {ty : ℚ} {inputs : List TractCover} {r : ReallocRow}
    (hr : r ∈ realloc ty inputs) :
    ∃ tc ∈ inputs, ∃ s ∈ slicesOfTract ty tc, r = reallocOfSlice s := by
  obtain ⟨s, hs, rfl⟩ := List.mem_map.mp hr
  obtain ⟨L, hL, hsL⟩ := List.mem_flatten.mp hs
  obtain ⟨tc, htc, rfl⟩ := List.mem_map.mp hL
  exact ⟨tc, htc, s, hsL, rfl⟩

@[simp] theorem fillTot_vals (r : ReallocRow) : (fillTot r).vals = r.vals := rfl

@[simp] theorem fillTot_hid (r : ReallocRow) :
    (fillTot r).hist_district_ID = r.hist_district_ID := rfl

/-- Every row produced by `by_hist_district` is, per column, the
NaN-skipping sum of the matching realloc rows. -/
theorem mem_by_hist_district {ty : ℚ} {inputs : List TractCover} {row : AggRow}
    (h : row ∈ by_hist_district ty inputs) :
    ∃ k ∈ groupKeys ((realloc ty inputs).map fillTot),
      row = ⟨k.1, k.2, fun c =>
        nansum ((((realloc ty inputs).map fillTot).filter
          fun r => r.key = k).map (fun r => r.vals c))⟩ := by
  obtain ⟨k, hk, rfl⟩ := List.mem_map.mp h
  exact ⟨k, hk, rfl⟩

theorem realloc_cons (ty : ℚ) (tc : TractCover) (rest : List TractCover) :
    realloc ty (tc :: rest) =
      (slicesOfTract ty tc).map reallocOfSlice ++ realloc ty rest := by
  simp [realloc, slices]

/-- When a geoid identifies exactly one input tract, filtering the full
realloc table by that geoid recovers exactly that tract's rows. -/
theorem realloc_geoid_filter (ty : ℚ) (inputs : List TractCover) (tc : TractCover)
    (h : inputs.filter (fun x => x.tract.geoid = tc.tract.geoid) = [tc]) :
    (realloc ty inputs).filter (fun r => r.geoid = tc.tract.geoid) =
      (slicesOfTract ty tc).map reallocOfSlice := by
  induction inputs with
  | nil => simp at h
  | cons x rest ih =>
    by_cases hx : x.tract.geoid = tc.tract.geoid
    · rw [List.filter_cons_of_pos (by simpa using hx)] at h
      have hxeq : x = tc := (List.cons_eq_cons.mp h).1
      have hrest : rest.filter
          (fun y => y.tract.geoid = tc.tract.geoid) = [] :=
        (List.cons_eq_cons.mp h).2
      rw [realloc_cons, List.filter_append]
      have h1 : ((slicesOfTract ty x).map reallocOfSlice).filter
          (fun r => r.geoid = tc.tract.geoid) =
          (slicesOfTract ty x).map reallocOfSlice := by
        rw [List.filter_eq_self]
        intro r hr
        obtain ⟨s, hs, rfl⟩ := List.mem_map.mp hr
        have hg := (mem_slicesOfTract hs).1
        simp [reallocOfSlice, hg, hx]
      have h2 : (realloc ty rest).filter (fun r => r.geoid = tc.tract.geoid) = [] := by
        rw [List.filter_eq_nil_iff]
        intro r hr
        obtain ⟨tc', htc', s, hs, rfl⟩ := mem_realloc hr
        have hg : (reallocOfSlice s).geoid = tc'.tract.geoid := by
          simpa [reallocOfSlice] using (mem_slicesOfTract hs).1
        simp only [hg]
        intro hcontra
        have hmem2 : tc' ∈ rest.filter (fun y => y.tract.geoid = tc.tract.geoid) :=
          List.mem_filter.mpr ⟨htc', by simpa using hcontra⟩
        rw [hrest] at hmem2
        exact absurd hmem2 (List.not_mem_nil tc')
      rw [h1, h2, List.append_nil, hxeq]
    · rw [List.filter_cons_of_neg (by simpa using hx)] at h
      rw [realloc_cons, List.filter_append, ih h]
      have h1 : ((slicesOfTract ty x).map reallocOfSlice).filter
          (fun r => r.geoid = tc.tract.geoid) = [] := by
        rw [List.filter_eq_nil_iff]
        intro r hr
        obtain ⟨s, hs, rfl⟩ := List.mem_map.mp hr
        have hg := (mem_slicesOfTract hs).1
        simp [reallocOfSlice, hg, hx]
      rw [h1, List.nil_append]

theorem sum_scale (q A : ℚ) (l : List (District × ℚ)) :
    (l.map fun p => q * (p.2 / A)).sum = q * (l.map Prod.snd).sum / A := by
  induction l with
  | nil => simp
  | cons p t ih =>
    simp only [List.map_cons, List.sum_cons, ih]
    ring

/-- C2: for every slice, in both analyses, the allocated cell of every
numeric attribute equals the source tract's attribute value times the
slice's area share `s_area / tract_area`. -/
theorem alloc_value_eq_share :
    (∀ (s : Slice) (c : Col) (q : ℚ), s.row.col c = PVal.num q →
      s.tract_area ≠ 0 →
      (reallocOfSlice s).vals c = PVal.num (q * (s.s_area / s.tract_area))) ∧
    (∀ (s : TSSlice) (c : TSCol) (q : ℚ), s.race.col c = PVal.num q →
      s.tract_area ≠ 0 →
      (tsReallocOfSlice s).vals c = PVal.num (q * (s.s_area / s.tract_area))) := by
  constructor
  · intro s c q hq hA
    simp [reallocOfSlice, area_share, hq, PVal.num_div_num _ _ hA]
  · intro s c q hq hA
    simp [tsReallocOfSlice, ts_area_share, hq, PVal.num_div_num _ _ hA]

/-- Witness for C2: a slice of area 60 of a tract of area 100 holding
`pop_total = 100` receives an allocated `pop_total` of 60. -/
theorem alloc_value_eq_share_witness :
    (reallocOfSlice ⟨"t1", "D1", PVal.num 13, 60, 100,
      mkRow 100 40 50 20 30⟩).vals .pop_total = PVal.num 60 := by
  have h := alloc_value_eq_share.1
    ⟨"t1", "D1", PVal.num 13, 60, 100, mkRow 100 40 50 20 30⟩
    .pop_total 100 (by simp [mkRowQ]) (by norm_num)
  rw [(by norm_num : (100 : ℚ) * (60 / 100) = 60)] at h
  exact h

/-- Conservation in the 2020 analysis: if a source tract (the unique
input with its geoid) has slices whose areas sum to its full area with
nothing left uncovered, the allocated values over all its slices sum
exactly back to the source attribute value. -/
theorem conservation_2020 (ty : ℚ) (inputs : List TractCover) (tc : TractCover)
    (hmem : inputs.filter (fun x => x.tract.geoid = tc.tract.geoid) = [tc])
    (hA : tc.tract.tract_area ≠ 0)
    (hcov : (tc.cover.map Prod.snd).sum = tc.tract.tract_area)
    (hu : tc.uncov = 0)
    (c : Col) (q : ℚ) (hq : tc.tract.row.col c = PVal.num q) :
    nansum (((realloc ty inputs).filter
      fun r => r.geoid = tc.tract.geoid).map fun r => r.vals c) = PVal.num q := by
  rw [realloc_geoid_filter ty inputs tc hmem]
  have hnil : slicesOfTract ty tc = tc.cover.map fun p =>
      ⟨tc.tract.geoid, p.1.hid, tot_years ty p.1, p.2,
        tc.tract.tract_area, tc.tract.row⟩ := by
    simp [slicesOfTract, hu]
  have hlist : ((slicesOfTract ty tc).map reallocOfSlice).map (fun r => r.vals c) =
      tc.cover.map fun p : District × ℚ =>
        PVal.num (q * (p.2 / tc.tract.tract_area)) := by
    rw [hnil]
    simp only [List.map_map]
    apply List.map_congr_left
    intro p _
    simp [reallocOfSlice, area_share, hq, PVal.num_div_num _ _ hA]
  rw [hlist,
    nansum_map_num (fun p : District × ℚ => q * (p.2 / tc.tract.tract_area)) tc.cover,
    sum_scale, hcov, mul_div_assoc, div_self hA, mul_one]

/-- Conservation in the time-series analysis: if a source tract's
surviving slices (all covering districts carry a designation year, so the
`dropna` removes nothing) have areas summing to its full area, the
allocated values sum exactly back to the source attribute value. -/
theorem conservation_ts (ty : ℚ) (tc : TSTractCover) (c : TSCol) (q : ℚ)
    (hA : tc.tract.tract_area ≠ 0)
    (hcov : (tc.cover.map Prod.snd).sum = tc.tract.tract_area)
    (hdes : ∀ p ∈ tc.cover, p.1.des_year ≠ PVal.nan)
    (hq : (fillTwoRaces tc.tract.race).col c = PVal.num q) :
    nansum ((tsRealloc ty [tc]).map fun r => r.vals c) = PVal.num q := by
  have hfe : (tsSlicesOfTract ty tc).filter (fun s => s.tyrs ≠ PVal.nan) =
      tsSlicesOfTract ty tc := by
    rw [List.filter_eq_self]
    intro s hs
    obtain ⟨p, hp, rfl⟩ := List.mem_map.mp hs
    have hne : tot_years ty p.1 ≠ PVal.nan := fun h =>
      hdes p hp ((PVal.num_sub_eq_nan_iff ty p.1.des_year).mp h)
    simpa using hne
  have hflat : ([tc].map (tsSlicesOfTract ty)).flatten = tsSlicesOfTract ty tc := by
    simp
  have hts : tsRealloc ty [tc] = (tsSlicesOfTract ty tc).map tsReallocOfSlice := by
    simp only [tsRealloc, tsSlices]
    rw [hflat, hfe]
  rw [hts]
  have hlist : ((tsSlicesOfTract ty tc).map tsReallocOfSlice).map
      (fun r => r.vals c) = tc.cover.map fun p : District × ℚ =>
        PVal.num (q * (p.2 / tc.tract.tract_area)) := by
    simp only [tsSlicesOfTract, List.map_map]
    apply List.map_congr_left
    intro p hp
    simp [tsReallocOfSlice, ts_area_share, hq, PVal.num_div_num _ _ hA]
  rw [hlist, nansum_map_num
    (fun p : District × ℚ => q * (p.2 / tc.tract.tract_area)) tc.cover,
    sum_scale, hcov, mul_div_assoc, div_self hA, mul_one]

/-- C1: conservation — in both analyses, for every source tract whose
slices' areas sum to its full area (total target coverage, nothing left
uncovered, and in the time-series path no covering district lost to the
designation-year filter), the sum of the allocated values over all the
source's slices equals the source's original attribute value — exactly,
in exact arithmetic, hence within any relative tolerance, in particular
`1e-6`. -/
theorem conservation_total_coverage :
    (∀ (ty : ℚ) (inputs : List TractCover) (tc : TractCover),
      inputs.filter (fun x => x.tract.geoid = tc.tract.geoid) = [tc] →
      tc.tract.tract_area ≠ 0 →
      (tc.cover.map Prod.snd).sum = tc.tract.tract_area →
      tc.uncov = 0 →
      ∀ (c : Col) (q : ℚ), tc.tract.row.col c = PVal.num q →
      nansum (((realloc ty inputs).filter
        fun r => r.geoid = tc.tract.geoid).map fun r => r.vals c) =
        PVal.num q) ∧
    (∀ (ty : ℚ) (tc : TSTractCover),
      tc.tract.tract_area ≠ 0 →
      (tc.cover.map Prod.snd).sum = tc.tract.tract_area →
      (∀ p ∈ tc.cover, p.1.des_year ≠ PVal.nan) →
      ∀ (c : TSCol) (q : ℚ), (fillTwoRaces tc.tract.race).col c = PVal.num q →
      nansum ((tsRealloc ty [tc]).map fun r => r.vals c) = PVal.num q) :=
  ⟨fun ty inputs tc h1 h2 h3 h4 c q h5 =>
      conservation_2020 ty inputs tc h1 h2 h3 h4 c q h5,
    fun ty tc h1 h2 h3 c q h4 => conservation_ts ty tc c q h1 h2 h3 h4⟩

/-- The concrete input of the conservation witness: a tract of area 100
with `pop_total = 100`, fully covered by two districts with slice areas
60 and 40. -/
def w1tc : TractCover :=
  ⟨⟨"t1", 100, mkRow 100 40 50 20 30⟩,
    [(⟨"D1", PVal.num 1990⟩, 60), (⟨"D2", PVal.num 2005⟩, 40)], 0⟩

/-- Witness for C1: on the scenario-A input the allocated `pop_total`
sums back to exactly 100. -/
theorem conservation_total_coverage_witness :
    nansum (((realloc 2023 [w1tc]).filter
      fun r => r.geoid = w1tc.tract.geoid).map fun r => r.vals .pop_total) =
      PVal.num 100 :=
  conservation_total_coverage.1 2023 [w1tc] w1tc (by decide) (by norm_num [w1tc])
    (by norm_num [w1tc]) rfl .pop_total 100 (by simp [w1tc, mkRowQ])

/-- C4 counterexample: in the 2020 analysis (whose observations are the
2020 census) run on its documented date in 2023, a district designated in
2010 gets `tot_years = 13`, not observation year minus event year
(`2020 - 2010 = 10`). -/
theorem tot_years_uses_run_date_cex :
    tot_years 2023 ⟨"D1", PVal.num 2010⟩ = PVal.num 13 ∧
      tot_years 2023 ⟨"D1", PVal.num 2010⟩ ≠ PVal.num (2020 - 2010) := by
  constructor
  · simp only [tot_years, PVal.num_sub_num]
    norm_num
  · simp only [tot_years, PVal.num_sub_num, ne_eq, PVal.num.injEq]
    norm_num

/-- C4 amended: in the time-series analysis `years_since_des` equals the
observation year minus the district's designation year; districts with no
designation year never reach the aggregated output there (hence never get
a 0). In the 2020 analysis the years-since value is measured from the run
date, and a missing designation year yields NaN, never 0. -/
theorem years_since_des_spec :
    (∀ (y : ℚ) (a : TSAggRow) (e : ℚ), a.des_year = PVal.num e →
      (tsOutOfAgg y a).years_since_des = PVal.num (y - e)) ∧
    (∀ (ty : ℚ) (inputs : List TSTractCover) (row : TSAggRow),
      row ∈ by_hist_district_dic ty inputs → row.des_year ≠ PVal.nan) ∧
    (∀ (ty : ℚ) (d : District), d.des_year = PVal.nan →
      tot_years ty d = PVal.nan ∧ tot_years ty d ≠ PVal.num 0) := by
  refine ⟨?_, ?_, ?_⟩
  · intro y a e he
    simp [tsOutOfAgg, he]
  · intro ty inputs row hrow
    obtain ⟨k, hk, rfl⟩ := List.mem_map.mp hrow
    have hk2 := List.mem_dedup.mp hk
    have := (List.mem_filter.mp hk2).2
    simpa using this
  · intro ty d hd
    have h1 : tot_years ty d = PVal.nan := (PVal.num_sub_eq_nan_iff ty _).mpr hd
    exact ⟨h1, by rw [h1]; intro h; exact PVal.noConfusion h⟩

/-- Witness for C4 (amended): event year 2010 observed in 2020 yields 10
in the time series; a missing designation year yields NaN in the 2020
analysis. -/
theorem years_since_des_spec_witness :
    (tsOutOfAgg 2020 ⟨"D1", PVal.num 2010, fun _ => PVal.num 0⟩).years_since_des
        = PVal.num 10 ∧
      tot_years 2023 ⟨"D9", PVal.nan⟩ = PVal.nan := by
  constructor
  · have h := years_since_des_spec.1 2020
      ⟨"D1", PVal.num 2010, fun _ => PVal.num 0⟩ 2010 rfl
    rw [(by norm_num : (2020 : ℚ) - 2010 = 10)] at h
    exact h
  · exact (years_since_des_spec.2.2 2023 ⟨"D9", PVal.nan⟩ rfl).1

theorem tot_years_eq_nan_iff (ty : ℚ) (d : District) :
    tot_years ty d = PVal.nan ↔ d.des_year = PVal.nan :=
  PVal.num_sub_eq_nan_iff ty d.des_year

/-- The per-tract step of the time-series pipeline gives the same realloc
rows whatever the run date is: the `dropna` filter only looks at whether
`tot_years` is NaN, which happens exactly when `des_year` is, and
`tot_years` itself is not carried into the realloc rows. -/
theorem tsSlicesOfTract_run_date (ty ty' : ℚ) (tc : TSTractCover) :
    ((tsSlicesOfTract ty tc).filter fun s => s.tyrs ≠ PVal.nan).map
        tsReallocOfSlice =
      ((tsSlicesOfTract ty' tc).filter fun s => s.tyrs ≠ PVal.nan).map
        tsReallocOfSlice := by
  simp only [tsSlicesOfTract]
  induction tc.cover with
  | nil => rfl
  | cons p t ih =>
    simp only [List.map_cons, List.filter_cons]
    by_cases hd : p.1.des_year = PVal.nan
    · have h1 : tot_years ty p.1 = PVal.nan := (tot_years_eq_nan_iff ty p.1).mpr hd
      have h2 : tot_years ty' p.1 = PVal.nan := (tot_years_eq_nan_iff ty' p.1).mpr hd
      simpa [h1, h2] using ih
    · have h1 : tot_years ty p.1 ≠ PVal.nan := fun h =>
        hd ((tot_years_eq_nan_iff ty p.1).mp h)
      have h2 : tot_years ty' p.1 ≠ PVal.nan := fun h =>
        hd ((tot_years_eq_nan_iff ty' p.1).mp h)
      simpa [h1, h2, tsReallocOfSlice, ts_area_share] using ih

theorem tsRealloc_run_date (ty ty' : ℚ) (inputs : List TSTractCover) :
    tsRealloc ty inputs = tsRealloc ty' inputs := by
  induction inputs with
  | nil => rfl
  | cons tc rest ih =>
    have hcons : ∀ t : ℚ, tsRealloc t (tc :: rest) =
        ((tsSlicesOfTract t tc).filter fun s => s.tyrs ≠ PVal.nan).map
          tsReallocOfSlice ++ tsRealloc t rest := by
      intro t
      simp [tsRealloc, tsSlices, List.filter_append]
    rw [hcons ty, hcons ty', ih, tsSlicesOfTract_run_date ty ty' tc]

/-- C9 amended: the time-series analysis is a pure function of its
inputs — in particular its output does not depend on the run date — while
the 2020 analysis does depend on the run date (see the counterexample). -/
theorem ts_run_date_invariant (ty ty' year : ℚ) (inputs : List TSTractCover) :
    tsYearTable ty year inputs = tsYearTable ty' year inputs := by
  simp only [tsYearTable, by_hist_district_dic]
  rw [tsRealloc_run_date ty ty' inputs]

/-- The concrete input showing the 2020 pipeline's run-date dependence. -/
def i9 : TractCover :=
  ⟨⟨"t1", 100, mkRow 10 4 5 2 3⟩, [(⟨"D1", PVal.num 2010⟩, 100)], 0⟩

/-- C9 counterexample: the same input run "today" in 2023 and in 2024
produces different aggregated outputs (`tot_years` group keys 13 vs 14),
so the 2020 pipeline depends on external state (the current date). -/
theorem by_hist_district_run_date_cex :
    by_hist_district 2023 [i9] ≠ by_hist_district 2024 [i9] := by
  have h23 : (by_hist_district 2023 [i9]).map (fun a => a.tyrs) = [PVal.num 13] := by
    simp [by_hist_district, groupKeys, realloc, slices, slicesOfTract, i9,
      reallocOfSlice, fillTot, ReallocRow.key, tot_years]
    norm_num
  have h24 : (by_hist_district 2024 [i9]).map (fun a => a.tyrs) = [PVal.num 14] := by
    simp [by_hist_district, groupKeys, realloc, slices, slicesOfTract, i9,
      reallocOfSlice, fillTot, ReallocRow.key, tot_years]
    norm_num
  intro h
  have h2 := congrArg (List.map fun a => a.tyrs) h
  rw [h23, h24] at h2
  simp only [List.cons.injEq, PVal.num.injEq] at h2
  exact absurd h2.1 (by norm_num)

/-- An all-number NHGIS race row. -/
def mkRace (w b n ao t : ℚ) : RaceRow :=
  ⟨.num w, .num b, .num n, .num ao, .num t⟩

/-- The concrete time-series input of the C5 counterexample: one tract of
area 100, half covered by district D1 (designated 1990) and half by
district D2, which has no designation-year record. -/
def i5 : TSTractCover :=
  ⟨⟨"t1", 100, mkRace 4 3 1 1 1⟩,
    [(⟨"D1", PVal.num 1990⟩, 50), (⟨"D2", PVal.nan⟩, 50)]⟩

/-- C5 counterexample: in the time-series analysis, the aggregated output
contains no record at all for the undated district D2 — its slices are
dropped by `dropna(subset='tot_years')` inside the pipeline, not filtered
by a caller afterwards. -/
theorem ts_drops_undated_district_cex :
    ((by_hist_district_dic 2023 [i5]).map fun a => a.hist_district_ID) = ["D1"] ∧
      ((by_hist_district_dic 2023 [i5]).filter
        fun a => a.hist_district_ID = "D2") = [] := by
  have hkeys : ((by_hist_district_dic 2023 [i5]).map
      fun a => a.hist_district_ID) = ["D1"] := by
    simp [by_hist_district_dic, tsGroupKeys, tsRealloc, tsSlices,
      tsSlicesOfTract, i5, tsReallocOfSlice, TSReallocRow.key, tot_years,
      mkRace, List.filter_cons]
  refine ⟨hkeys, ?_⟩
  rw [List.filter_eq_nil_iff]
  intro a ha
  have hmem : a.hist_district_ID ∈ (by_hist_district_dic 2023 [i5]).map
      (fun a => a.hist_district_ID) := List.mem_map_of_mem _ ha
  rw [hkeys] at hmem
  rcases List.mem_singleton.mp hmem with h
  simp [h]

/-- C5 amended: the two analyses disagree. In the 2020 analysis a
district with no designation year is retained all the way to the
aggregated output, under the sentinel `tot_years` key -666666; in the
time-series analysis every slice surviving to allocation has a non-NaN
designation year, so undated districts are dropped inside the pipeline
and never reach the output. -/
theorem undated_2020_retained_ts_dropped :
    (∀ (ty : ℚ) (inputs : List TractCover) (tc : TractCover),
      tc ∈ inputs → ∀ p ∈ tc.cover, p.1.des_year = PVal.nan →
      ∃ row ∈ by_hist_district ty inputs,
        row.hist_district_ID = p.1.hid ∧ row.tyrs = PVal.num (-666666)) ∧
    (∀ (ty : ℚ) (inputs : List TSTractCover) (s : TSSlice),
      s ∈ tsSlices ty inputs → s.des_year ≠ PVal.nan) := by
  constructor
  · intro ty inputs tc htc p hp hnan
    have hs : (⟨tc.tract.geoid, p.1.hid, tot_years ty p.1, p.2,
        tc.tract.tract_area, tc.tract.row⟩ : Slice) ∈ slicesOfTract ty tc :=
      List.mem_append_left _ (List.mem_map_of_mem _ hp)
    have hsl : (⟨tc.tract.geoid, p.1.hid, tot_years ty p.1, p.2,
        tc.tract.tract_area, tc.tract.row⟩ : Slice) ∈ slices ty inputs := by
      exact List.mem_flatten.mpr ⟨slicesOfTract ty tc,
        List.mem_map_of_mem _ htc, hs⟩
    have hr : reallocOfSlice ⟨tc.tract.geoid, p.1.hid, tot_years ty p.1, p.2,
        tc.tract.tract_area, tc.tract.row⟩ ∈ realloc ty inputs :=
      List.mem_map_of_mem _ hsl
    have hfr : fillTot (reallocOfSlice ⟨tc.tract.geoid, p.1.hid,
        tot_years ty p.1, p.2, tc.tract.tract_area, tc.tract.row⟩) ∈
        (realloc ty inputs).map fillTot :=
      List.mem_map_of_mem _ hr
    have htyn : tot_years ty p.1 = PVal.nan :=
      (tot_years_eq_nan_iff ty p.1).mpr hnan
    have hkey : (fillTot (reallocOfSlice ⟨tc.tract.geoid, p.1.hid,
        tot_years ty p.1, p.2, tc.tract.tract_area, tc.tract.row⟩)).key =
        (p.1.hid, PVal.num (-666666)) := by
      simp [fillTot, reallocOfSlice, ReallocRow.key, htyn]
    have hk : (p.1.hid, PVal.num (-666666)) ∈
        groupKeys ((realloc ty inputs).map fillTot) := by
      apply List.mem_dedup.mpr
      apply List.mem_filter.mpr
      refine ⟨?_, by simp⟩
      rw [← hkey]
      exact List.mem_map_of_mem _ hfr
    refine ⟨⟨p.1.hid, PVal.num (-666666), fun c =>
      nansum (((((realloc ty inputs).map fillTot).filter
        fun r => r.key = (p.1.hid, PVal.num (-666666)))).map
          fun r => r.vals c)⟩, ?_, rfl, rfl⟩
    have := List.mem_map_of_mem (fun k : String × PVal =>
      (⟨k.1, k.2, fun c => nansum ((((realloc ty inputs).map fillTot).filter
        fun r => r.key = k).map fun r => r.vals c)⟩ : AggRow)) hk
    exact this
  · intro ty inputs s hs
    have h1 := List.mem_filter.mp hs
    have h2 : s.tyrs ≠ PVal.nan := by simpa using h1.2
    obtain ⟨L, hL, hsL⟩ := List.mem_flatten.mp h1.1
    obtain ⟨tc, htc, rfl⟩ := List.mem_map.mp hL
    obtain ⟨pr, hpr, rfl⟩ := List.mem_map.mp hsL
    intro hcontra
    exact h2 ((tot_years_eq_nan_iff ty pr.1).mpr hcontra)

/-- The concrete 2020 input of the C5 witness: a tract half covered by an
undated district D2. -/
def w5tc : TractCover :=
  ⟨⟨"t1", 100, mkRow 10 4 5 2 3⟩,
    [(⟨"D1", PVal.num 1990⟩, 50), (⟨"D2", PVal.nan⟩, 50)], 0⟩

/-- Witness for C5 (amended): in the 2020 analysis the undated district
D2 does appear in the aggregated output, under the sentinel key. -/
theorem undated_2020_retained_ts_dropped_witness :
    (⟨"D2", PVal.nan⟩, (50 : ℚ)) ∈ w5tc.cover ∧
      ∃ row ∈ by_hist_district 2023 [w5tc],
        row.hist_district_ID = "D2" ∧ row.tyrs = PVal.num (-666666) := by
  refine ⟨by simp [w5tc], ?_⟩
  exact undated_2020_retained_ts_dropped.1 2023 [w5tc] w5tc (by simp)
    (⟨"D2", PVal.nan⟩, (50 : ℚ)) (by simp [w5tc]) rfl

/-- The concrete input of the C8 counterexample: a degenerate tract of
area 0 whose only slice also has area 0. -/
def i8 : TractCover :=
  ⟨⟨"t0", 0, mkRow 5 1 2 1 1⟩, [(⟨"D1", PVal.num 1990⟩, 0)], 0⟩

/-- C8 counterexample: for a zero-area source tract the code does divide
by zero (`0/0`, yielding NaN) and does produce an allocated record — a
NaN-valued one — contrary to the claim that no record is produced and no
division by zero is performed. -/
theorem zero_area_nan_record_cex :
    ((realloc 2023 [i8]).map fun r => r.vals .pop_total) = [PVal.nan] ∧
      realloc 2023 [i8] ≠ [] := by
  have h : ((realloc 2023 [i8]).map fun r => r.vals .pop_total) = [PVal.nan] := by
    simp [realloc, slices, slicesOfTract, i8, reallocOfSlice, area_share,
      PVal.div, PVal.inv, PVal.mul, mkRow, PopRow.col]
  refine ⟨h, ?_⟩
  intro hnil
  rw [hnil] at h
  exact absurd h (by simp)

/-- C8 amended: a zero-area source region is handled without aborting,
but not by skipping it: the `0/0` area share is NaN, every allocated cell
of the region is NaN, and only then does the NaN-skipping group sum make
the region contribute exactly 0 to every aggregated row. -/
theorem zero_area_alloc (ty : ℚ) (tc : TractCover)
    (hA : tc.tract.tract_area = 0)
    (hcov : ∀ p ∈ tc.cover, p.2 = 0)
    (hu : tc.uncov = 0) :
    (∀ r ∈ realloc ty [tc], ∀ c, r.vals c = PVal.nan) ∧
      (∀ row ∈ by_hist_district ty [tc], ∀ c, row.vals c = PVal.num 0) := by
  have hpart1 : ∀ r ∈ realloc ty [tc], ∀ c, r.vals c = PVal.nan := by
    intro r hr c
    obtain ⟨tc', htc', s, hs, rfl⟩ := mem_realloc hr
    rcases List.mem_singleton.mp htc' with rfl
    obtain ⟨-, hsA, -, harea⟩ := mem_slicesOfTract hs
    have hzero : s.s_area = 0 := by
      rcases harea with h | ⟨p, hp, h⟩
      · rw [h, hu]
      · rw [h]
        exact hcov p hp
    have hshare : area_share s = PVal.nan := by
      simp [area_share, hzero, hsA, hA, PVal.div, PVal.inv, PVal.mul]
    simp [reallocOfSlice, hshare]
  refine ⟨hpart1, ?_⟩
  intro row hrow c
  obtain ⟨k, hk, rfl⟩ := mem_by_hist_district hrow
  apply nansum_all_nan
  intro v hv
  obtain ⟨r, hrf, rfl⟩ := List.mem_map.mp hv
  have hrmem := (List.mem_filter.mp hrf).1
  obtain ⟨r0, hr0, rfl⟩ := List.mem_map.mp hrmem
  rw [fillTot_vals]
  exact hpart1 r0 hr0 c

/-- Witness for C8 (amended): on the concrete zero-area input the
hypotheses hold and every aggregated cell is exactly 0. -/
theorem zero_area_alloc_witness :
    i8.tract.tract_area = 0 ∧
      (∀ row ∈ by_hist_district 2023 [i8], ∀ c, row.vals c = PVal.num 0) :=
  ⟨by norm_num [i8],
    (zero_area_alloc 2023 i8 (by norm_num [i8]) (by simp [i8]) rfl).2⟩


/-! ## Group-sum machinery for the derived-metric claims -/

@[simp] theorem PVal.toQ_num (q : ℚ) : PVal.toQ (PVal.num q) = q := rfl

theorem sum_sub_pointwise {R : Type} (rs : List R) (f g h : R → ℚ)
    (hpt : ∀ r ∈ rs, f r = g r - h r) :
    (rs.map f).sum = (rs.map g).sum - (rs.map h).sum := by
  induction rs with
  | nil => simp
  | cons x t ih =>
    simp only [List.map_cons, List.sum_cons]
    rw [hpt x (List.mem_cons_self x t),
      ih (fun r hr => hpt r (List.mem_cons_of_mem _ hr))]
    ring

/-- Two columns of a group of rows, pointwise plain numbers with the
first bounded by the second, have plain group sums in the same relation. -/
theorem group_sums_bound {R : Type} (rs : List R) (fn fd : R → PVal)
    (h : ∀ r ∈ rs, ∃ n d : ℚ, fn r = PVal.num n ∧ fd r = PVal.num d ∧
      0 ≤ n ∧ n ≤ d) :
    ∃ N D : ℚ, nansum (rs.map fn) = PVal.num N ∧
      nansum (rs.map fd) = PVal.num D ∧ 0 ≤ N ∧ N ≤ D := by
  have hn : ∀ v ∈ rs.map fn, ∃ q : ℚ, v = PVal.num q := by
    intro v hv
    obtain ⟨r, hr, rfl⟩ := List.mem_map.mp hv
    obtain ⟨n, d, h1, -, -, -⟩ := h r hr
    exact ⟨n, h1⟩
  have hd : ∀ v ∈ rs.map fd, ∃ q : ℚ, v = PVal.num q := by
    intro v hv
    obtain ⟨r, hr, rfl⟩ := List.mem_map.mp hv
    obtain ⟨n, d, -, h2, -, -⟩ := h r hr
    exact ⟨d, h2⟩
  refine ⟨_, _, nansum_eq_num _ hn, nansum_eq_num _ hd, ?_, ?_⟩
  · rw [List.map_map]
    apply List.sum_nonneg
    intro x hx
    obtain ⟨r, hr, rfl⟩ := List.mem_map.mp hx
    obtain ⟨n, d, h1, -, h3, -⟩ := h r hr
    simp [Function.comp, h1, h3]
  · rw [List.map_map, List.map_map]
    apply List.sum_le_sum
    intro r hr
    obtain ⟨n, d, h1, h2, -, h4⟩ := h r hr
    simp [Function.comp, h1, h2, h4]

/-- `100 * N / D` with `0 ≤ N ≤ D` is NaN (when `D = 0`, forcing
`N = 0`) or a number in `[0, 100]`. -/
theorem ratio_domain (N D : ℚ) (h0 : 0 ≤ N) (h1 : N ≤ D) :
    pctDomain (((PVal.num 100).mul (PVal.num N)).div (PVal.num D)) := by
  by_cases hD : D = 0
  · have hN : N = 0 := le_antisymm (hD ▸ h1) h0
    left
    simp [hN, hD, PVal.mul, PVal.div, PVal.inv]
  · right
    have hDpos : 0 < D := lt_of_le_of_ne (h0.trans h1) (Ne.symm hD)
    refine ⟨100 * N / D, ?_, ?_, ?_⟩
    · rw [PVal.num_mul_num, PVal.num_div_num _ _ hD]
    · positivity
    · rw [div_le_iff₀ hDpos]
      nlinarith

/-- Every row of the grouped table is generated from a slice of one of
the input tracts; the allocated cell of each column is the tract's cell
times the slice's share `sa / tract_area`. -/
theorem mem_rows_spec {ty : ℚ} {inputs : List TractCover} {r : ReallocRow}
    (hr : r ∈ (realloc ty inputs).map fillTot) :
    ∃ tc ∈ inputs, ∃ sa : ℚ,
      (sa = tc.uncov ∨ ∃ p ∈ tc.cover, sa = p.2) ∧
      ∀ c, r.vals c = (tc.tract.row.col c).mul
        ((PVal.num sa).div (PVal.num tc.tract.tract_area)) := by
  obtain ⟨r0, hr0, rfl⟩ := List.mem_map.mp hr
  obtain ⟨tc, htc, s, hs, rfl⟩ := mem_realloc hr0
  obtain ⟨-, hA, hrow, harea⟩ := mem_slicesOfTract hs
  refine ⟨tc, htc, s.s_area, harea, ?_⟩
  intro c
  rw [fillTot_vals]
  simp [reallocOfSlice, area_share, hrow, hA]

/-- Rows of the time-series realloc table, similarly. -/
theorem mem_tsRealloc {ty : ℚ} {inputs : List TSTractCover} {r : TSReallocRow}
    (hr : r ∈ tsRealloc ty inputs) :
    ∃ tc ∈ inputs, ∃ sa : ℚ, (∃ p ∈ tc.cover, sa = p.2) ∧
      ∀ c, r.vals c = ((fillTwoRaces tc.tract.race).col c).mul
        ((PVal.num sa).div (PVal.num tc.tract.tract_area)) := by
  obtain ⟨s, hs, rfl⟩ := List.mem_map.mp hr
  have hsf := (List.mem_filter.mp hs).1
  obtain ⟨L, hL, hsl⟩ := List.mem_flatten.mp hsf
  obtain ⟨tc, htc, rfl⟩ := List.mem_map.mp hL
  obtain ⟨p, hp, rfl⟩ := List.mem_map.mp hsl
  exact ⟨tc, htc, p.2, ⟨p, hp, rfl⟩, fun c => rfl⟩

theorem mem_by_hist_district_dic {ty : ℚ} {inputs : List TSTractCover}
    {row : TSAggRow} (h : row ∈ by_hist_district_dic ty inputs) :
    ∃ k ∈ tsGroupKeys (tsRealloc ty inputs),
      row = ⟨k.1, k.2, fun c => nansum (((tsRealloc ty inputs).filter
        fun r => r.key = k).map fun r => r.vals c)⟩ := by
  obtain ⟨k, hk, rfl⟩ := List.mem_map.mp h
  exact ⟨k, hk, rfl⟩

@[simp] theorem fillTwoRaces_mkRace (w b n ao t : ℚ) :
    fillTwoRaces (mkRace w b n ao t) = mkRace w b n ao t := by
  simp [fillTwoRaces, mkRace]

/-- The column values of an all-number race row, as rationals. -/
def mkRaceQ (w b n ao t : ℚ) : TSCol → ℚ
  | .total_pop => w + b + n + ao + t
  | .pop_poc => w + b + n + ao + t - w
  | .pop_white => w

@[simp] theorem col_mkRace (w b n ao t : ℚ) (c : TSCol) :
    (mkRace w b n ao t).col c = PVal.num (mkRaceQ w b n ao t c) := by
  cases c <;> simp [mkRace, RaceRow.col, total_pop, mkRaceQ]

/-- The concrete input of the C10 counterexample: a tract with a null (NaN)
`pop_white` cell but a plain `pop_total`, fully covered by one district. -/
def i10 : TractCover :=
  ⟨⟨"t1", 100, ⟨PVal.num 10, PVal.nan, PVal.num 5, PVal.num 2, PVal.num 3⟩⟩,
    [(⟨"D1", PVal.num 1990⟩, 100)], 0⟩

/-- C10 counterexample: with a null `pop_white` input cell (as produced
for the census missing-data sentinel), the aggregated row has
`pop_poc = 0` but `pop_total - pop_white = 10 - 0 = 10` — the identity
fails, because NaN contributions are skipped by the group sum. -/
theorem poc_identity_fails_with_null_cex :
    ((by_hist_district 2023 [i10]).map fun a =>
      (a.vals .pop_poc, (a.vals .pop_total).sub (a.vals .pop_white))) =
      [(PVal.num 0, PVal.num 10)] ∧
    PVal.num (0 : ℚ) ≠ PVal.num (10 : ℚ) := by
  constructor
  · simp [by_hist_district, groupKeys, realloc, slices, slicesOfTract, i10,
      reallocOfSlice, fillTot, ReallocRow.key, tot_years, area_share,
      PopRow.col, PVal.div, PVal.inv, PVal.mul, PVal.sub, PVal.neg, PVal.add,
      nansum, List.filter_cons]
  · simp only [ne_eq, PVal.num.injEq]
    norm_num

/-- C10 amended: the identity `pop_poc = pop_total - pop_white` holds in
every aggregated row of both analyses provided every input attribute cell
is a plain number (no nulls) and no tract has zero area; it is
established per tract and preserved exactly by the linear share scaling
and the group sums. -/
theorem poc_identity_of_num_inputs :
    (∀ (ty : ℚ) (inputs : List TractCover),
      (∀ tc ∈ inputs, (∃ T W HT HO HR : ℚ, tc.tract.row = mkRow T W HT HO HR) ∧
        tc.tract.tract_area ≠ 0) →
      ∀ row ∈ by_hist_district ty inputs,
        row.vals .pop_poc = (row.vals .pop_total).sub (row.vals .pop_white)) ∧
    (∀ (ty : ℚ) (inputs : List TSTractCover),
      (∀ tc ∈ inputs, (∃ w b n ao t : ℚ, tc.tract.race = mkRace w b n ao t) ∧
        tc.tract.tract_area ≠ 0) →
      ∀ row ∈ by_hist_district_dic ty inputs,
        row.vals .pop_poc = (row.vals .total_pop).sub (row.vals .pop_white)) := by
  constructor
  · intro ty inputs hv row hrow
    obtain ⟨k, hk, rfl⟩ := mem_by_hist_district hrow
    set rs := ((realloc ty inputs).map fillTot).filter
      (fun r => r.key = k) with hrs
    have hfacts : ∀ r ∈ rs, ∃ p t w : ℚ, r.vals .pop_poc = PVal.num p ∧
        r.vals .pop_total = PVal.num t ∧ r.vals .pop_white = PVal.num w ∧
        p = t - w := by
      intro r hr
      have hrmem : r ∈ (realloc ty inputs).map fillTot :=
        (List.mem_filter.mp hr).1
      obtain ⟨tc, htc, sa, -, hvals⟩ := mem_rows_spec hrmem
      obtain ⟨⟨T, W, HT, HO, HR, hrow2⟩, hA⟩ := hv tc htc
      have heval : ∀ c, r.vals c =
          PVal.num (mkRowQ T W HT HO HR c * (sa / tc.tract.tract_area)) := by
        intro c
        rw [hvals c, hrow2, col_mkRow, PVal.num_div_num _ _ hA,
          PVal.num_mul_num]
      refine ⟨_, _, _, heval .pop_poc, heval .pop_total, heval .pop_white, ?_⟩
      simp only [mkRowQ]
      ring
    have hnum : ∀ c0 : Col,
        ∀ v ∈ rs.map (fun r => r.vals c0), (c0 = .pop_poc ∨ c0 = .pop_total ∨
          c0 = .pop_white) → ∃ q : ℚ, v = PVal.num q := by
      intro c0 v hv2 hc0
      obtain ⟨r, hr, rfl⟩ := List.mem_map.mp hv2
      obtain ⟨p, t, w, h1, h2, h3, -⟩ := hfacts r hr
      rcases hc0 with rfl | rfl | rfl
      · exact ⟨p, h1⟩
      · exact ⟨t, h2⟩
      · exact ⟨w, h3⟩
    show nansum (rs.map fun r => r.vals .pop_poc) =
      (nansum (rs.map fun r => r.vals .pop_total)).sub
        (nansum (rs.map fun r => r.vals .pop_white))
    rw [nansum_eq_num _ (fun v hv2 => hnum .pop_poc v hv2 (by simp)),
      nansum_eq_num _ (fun v hv2 => hnum .pop_total v hv2 (by simp)),
      nansum_eq_num _ (fun v hv2 => hnum .pop_white v hv2 (by simp)),
      PVal.num_sub_num]
    congr 1
    rw [List.map_map, List.map_map, List.map_map]
    apply sum_sub_pointwise
    intro r hr
    obtain ⟨p, t, w, h1, h2, h3, h4⟩ := hfacts r hr
    simp [Function.comp, h1, h2, h3, h4]
  · intro ty inputs hv row hrow
    obtain ⟨k, hk, rfl⟩ := mem_by_hist_district_dic hrow
    set rs := (tsRealloc ty inputs).filter (fun r => r.key = k) with hrs
    have hfacts : ∀ r ∈ rs, ∃ p t w : ℚ, r.vals .pop_poc = PVal.num p ∧
        r.vals .total_pop = PVal.num t ∧ r.vals .pop_white = PVal.num w ∧
        p = t - w := by
      intro r hr
      have hrmem : r ∈ tsRealloc ty inputs := (List.mem_filter.mp hr).1
      obtain ⟨tc, htc, sa, -, hvals⟩ := mem_tsRealloc hrmem
      obtain ⟨⟨w, b, n, ao, t, hrace⟩, hA⟩ := hv tc htc
      have heval : ∀ c, r.vals c =
          PVal.num (mkRaceQ w b n ao t c * (sa / tc.tract.tract_area)) := by
        intro c
        rw [hvals c, hrace, fillTwoRaces_mkRace, col_mkRace,
          PVal.num_div_num _ _ hA, PVal.num_mul_num]
      refine ⟨_, _, _, heval .pop_poc, heval .total_pop, heval .pop_white, ?_⟩
      simp only [mkRaceQ]
      ring
    have hnum : ∀ c0 : TSCol,
        ∀ v ∈ rs.map (fun r => r.vals c0), ∃ q : ℚ, v = PVal.num q := by
      intro c0 v hv2
      obtain ⟨r, hr, rfl⟩ := List.mem_map.mp hv2
      obtain ⟨p, t, w, h1, h2, h3, -⟩ := hfacts r hr
      cases c0
      · exact ⟨t, h2⟩
      · exact ⟨p, h1⟩
      · exact ⟨w, h3⟩
    show nansum (rs.map fun r => r.vals .pop_poc) =
      (nansum (rs.map fun r => r.vals .total_pop)).sub
        (nansum (rs.map fun r => r.vals .pop_white))
    rw [nansum_eq_num _ (hnum .pop_poc), nansum_eq_num _ (hnum .total_pop),
      nansum_eq_num _ (hnum .pop_white), PVal.num_sub_num]
    congr 1
    rw [List.map_map, List.map_map, List.map_map]
    apply sum_sub_pointwise
    intro r hr
    obtain ⟨p, t, w, h1, h2, h3, h4⟩ := hfacts r hr
    simp [Function.comp, h1, h2, h3, h4]

/-- Witness for C10 (amended): on an all-number input the aggregated row
satisfies the identity. -/
theorem poc_identity_of_num_inputs_witness :
    (∀ tc ∈ [i9], (∃ T W HT HO HR : ℚ, tc.tract.row = mkRow T W HT HO HR) ∧
      tc.tract.tract_area ≠ 0) ∧
    ∀ row ∈ by_hist_district 2023 [i9],
      row.vals .pop_poc = (row.vals .pop_total).sub (row.vals .pop_white) := by
  have hv : ∀ tc ∈ [i9],
      (∃ T W HT HO HR : ℚ, tc.tract.row = mkRow T W HT HO HR) ∧
        tc.tract.tract_area ≠ 0 := by
    intro tc htc
    rcases List.mem_singleton.mp htc with rfl
    exact ⟨⟨10, 4, 5, 2, 3, rfl⟩, by norm_num [i9]⟩
  exact ⟨hv, poc_identity_of_num_inputs.1 2023 [i9] hv⟩


/-! ## Percentage-domain claims -/

/-- Validity of a 2020 input: positive tract area, non-negative slice
areas, all-number attribute cells with each ratio numerator bounded by
its denominator (`pop_white ≤ pop_total`, `housing_rental ≤
housing_total`). -/
def Valid2020 (tc : TractCover) : Prop :=
  0 < tc.tract.tract_area ∧ 0 ≤ tc.uncov ∧ (∀ p ∈ tc.cover, 0 ≤ p.2) ∧
  ∃ T W HT HO HR : ℚ, tc.tract.row = mkRow T W HT HO HR ∧
    0 ≤ W ∧ W ≤ T ∧ 0 ≤ HR ∧ HR ≤ HT

/-- Validity of a time-series input: positive tract area, non-negative
slice areas, all-number non-negative race cells.  No cross-column bound
is needed: `total_pop` is constructed as the sum of the race columns. -/
def ValidTS (tc : TSTractCover) : Prop :=
  0 < tc.tract.tract_area ∧ (∀ p ∈ tc.cover, 0 ≤ p.2) ∧
  ∃ w b n ao t : ℚ, tc.tract.race = mkRace w b n ao t ∧
    0 ≤ w ∧ 0 ≤ b ∧ 0 ≤ n ∧ 0 ≤ ao ∧ 0 ≤ t

theorem valid_row_pairs {ty : ℚ} {inputs : List TractCover}
    (hv : ∀ tc ∈ inputs, Valid2020 tc) :
    ∀ r ∈ (realloc ty inputs).map fillTot,
      (∃ n d : ℚ, r.vals .pop_poc = PVal.num n ∧
        r.vals .pop_total = PVal.num d ∧ 0 ≤ n ∧ n ≤ d) ∧
      (∃ n d : ℚ, r.vals .housing_rental = PVal.num n ∧
        r.vals .housing_total = PVal.num d ∧ 0 ≤ n ∧ n ≤ d) := by
  intro r hr
  obtain ⟨tc, htc, sa, hsa, hvals⟩ := mem_rows_spec hr
  obtain ⟨hApos, hu0, hc0, T, W, HT, HO, HR, hrow2, hW0, hWT, hHR0, hHRT⟩ :=
    hv tc htc
  have hAne : tc.tract.tract_area ≠ 0 := ne_of_gt hApos
  have hsa0 : 0 ≤ sa := by
    rcases hsa with h | ⟨p, hp, h⟩
    · rw [h]; exact hu0
    · rw [h]; exact hc0 p hp
  have hk0 : 0 ≤ sa / tc.tract.tract_area := div_nonneg hsa0 hApos.le
  have heval : ∀ c, r.vals c =
      PVal.num (mkRowQ T W HT HO HR c * (sa / tc.tract.tract_area)) := by
    intro c
    rw [hvals c, hrow2, col_mkRow, PVal.num_div_num _ _ hAne, PVal.num_mul_num]
  constructor
  · refine ⟨_, _, heval .pop_poc, heval .pop_total, ?_, ?_⟩
    · exact mul_nonneg (by simp only [mkRowQ]; linarith) hk0
    · exact mul_le_mul_of_nonneg_right (by simp only [mkRowQ]; linarith) hk0
  · refine ⟨_, _, heval .housing_rental, heval .housing_total, ?_, ?_⟩
    · exact mul_nonneg (by simp only [mkRowQ]; linarith) hk0
    · exact mul_le_mul_of_nonneg_right (by simp only [mkRowQ]; linarith) hk0

theorem validTS_row_pairs {ty : ℚ} {inputs : List TSTractCover}
    (hv : ∀ tc ∈ inputs, ValidTS tc) :
    ∀ r ∈ tsRealloc ty inputs,
      ∃ n d : ℚ, r.vals .pop_white = PVal.num n ∧
        r.vals .total_pop = PVal.num d ∧ 0 ≤ n ∧ n ≤ d := by
  intro r hr
  obtain ⟨tc, htc, sa, hsa, hvals⟩ := mem_tsRealloc hr
  obtain ⟨hApos, hc0, w, b, n, ao, t, hrace, hw, hb, hn, hao, ht⟩ := hv tc htc
  have hAne : tc.tract.tract_area ≠ 0 := ne_of_gt hApos
  have hsa0 : 0 ≤ sa := by
    obtain ⟨p, hp, h⟩ := hsa
    rw [h]; exact hc0 p hp
  have hk0 : 0 ≤ sa / tc.tract.tract_area := div_nonneg hsa0 hApos.le
  have heval : ∀ c, r.vals c =
      PVal.num (mkRaceQ w b n ao t c * (sa / tc.tract.tract_area)) := by
    intro c
    rw [hvals c, hrace, fillTwoRaces_mkRace, col_mkRace,
      PVal.num_div_num _ _ hAne, PVal.num_mul_num]
  refine ⟨_, _, heval .pop_white, heval .total_pop, ?_, ?_⟩
  · exact mul_nonneg (by simp only [mkRaceQ]; linarith) hk0
  · exact mul_le_mul_of_nonneg_right (by simp only [mkRaceQ]; linarith) hk0

/-- C7 amended: every derived percentage metric is NaN or a number in
`[0, 100]`, provided (2020 analysis) each ratio numerator is bounded by
its denominator on input — which mere non-negativity does not guarantee,
see the counterexample — and (time-series analysis) the race inputs are
non-negative numbers, which suffices there because `total_pop` is built
as their sum. -/
theorem pct_domain_of_bounded :
    (∀ (ty : ℚ) (inputs : List TractCover), (∀ tc ∈ inputs, Valid2020 tc) →
      ∀ row ∈ by_hist_district ty inputs,
        pctDomain (pct_poc row) ∧ pctDomain (pct_rental row)) ∧
    (∀ (ty year : ℚ) (inputs : List TSTractCover),
      (∀ tc ∈ inputs, ValidTS tc) →
      ∀ row ∈ tsYearTable ty year inputs,
        pctDomain (perc_poc row) ∧ pctDomain (perc_white row)) := by
  constructor
  · intro ty inputs hv row hrow
    obtain ⟨k, hk, rfl⟩ := mem_by_hist_district hrow
    set rs := ((realloc ty inputs).map fillTot).filter
      (fun r => r.key = k) with hrs
    have hmem : ∀ r ∈ rs, r ∈ (realloc ty inputs).map fillTot :=
      fun r hr => (List.mem_filter.mp hr).1
    constructor
    · obtain ⟨N, D, hN, hD, h0, h1⟩ := group_sums_bound rs
        (fun r => r.vals .pop_poc) (fun r => r.vals .pop_total)
        (fun r hr => (valid_row_pairs hv r (hmem r hr)).1)
      dsimp only [pct_poc]
      rw [hN, hD]
      exact ratio_domain N D h0 h1
    · obtain ⟨N, D, hN, hD, h0, h1⟩ := group_sums_bound rs
        (fun r => r.vals .housing_rental) (fun r => r.vals .housing_total)
        (fun r hr => (valid_row_pairs hv r (hmem r hr)).2)
      dsimp only [pct_rental]
      rw [hN, hD]
      exact ratio_domain N D h0 h1
  · intro ty year inputs hv row hrow
    obtain ⟨a, ha, rfl⟩ := List.mem_map.mp hrow
    obtain ⟨k, hk, rfl⟩ := mem_by_hist_district_dic ha
    set rs := (tsRealloc ty inputs).filter (fun r => r.key = k) with hrs
    have hmem : ∀ r ∈ rs, r ∈ tsRealloc ty inputs :=
      fun r hr => (List.mem_filter.mp hr).1
    obtain ⟨Wv, Tv, hW, hT, h0, h1⟩ := group_sums_bound rs
      (fun r => r.vals .pop_white) (fun r => r.vals .total_pop)
      (fun r hr => validTS_row_pairs hv r (hmem r hr))
    constructor
    · dsimp only [perc_poc, tsOutOfAgg]
      rw [hW, hT, PVal.num_sub_num]
      exact ratio_domain (Tv - Wv) Tv (by linarith) (by linarith)
    · dsimp only [perc_white, tsOutOfAgg]
      rw [hW, hT]
      exact ratio_domain Wv Tv h0 h1

/-- The concrete input of the C7 counterexample: non-negative inputs with
`pop_white = 20 > pop_total = 10`. -/
def i7 : TractCover :=
  ⟨⟨"t1", 100, mkRow 10 20 0 0 0⟩, [(⟨"D1", PVal.num 1990⟩, 100)], 0⟩

/-- C7 counterexample: with valid non-negative inputs (`pop_total = 10`,
`pop_white = 20` — nothing in the pipeline requires the subgroup to be
bounded by the total), the derived `pct_poc` is `-100`, outside
`[0, 100]` and not NaN. -/
theorem pct_poc_negative_cex :
    ((by_hist_district 2023 [i7]).map fun a => pct_poc a) = [PVal.num (-100)] ∧
      ¬ (0 : ℚ) ≤ (-100 : ℚ) := by
  constructor
  · simp [by_hist_district, groupKeys, realloc, slices, slicesOfTract, i7,
      reallocOfSlice, fillTot, ReallocRow.key, tot_years, area_share,
      PopRow.col, pct_poc, mkRow, PVal.div, PVal.inv, PVal.mul, PVal.sub,
      PVal.neg, PVal.add, nansum, List.filter_cons]
    norm_num
  · norm_num

/-- Witness for C7 (amended): the scenario-A style input satisfies the
bounds and its derived percentages are in domain. -/
theorem pct_domain_of_bounded_witness :
    (∀ tc ∈ [i9], Valid2020 tc) ∧
      ∀ row ∈ by_hist_district 2023 [i9],
        pctDomain (pct_poc row) ∧ pctDomain (pct_rental row) := by
  have hv : ∀ tc ∈ [i9], Valid2020 tc := by
    intro tc htc
    rcases List.mem_singleton.mp htc with rfl
    refine ⟨by norm_num [i9], by norm_num [i9], ?_,
      10, 4, 5, 2, 3, rfl, by norm_num, by norm_num, by norm_num, by norm_num⟩
    intro p hp
    rcases List.mem_singleton.mp hp with rfl
    norm_num
  exact ⟨hv, pct_domain_of_bounded.1 2023 [i9] hv⟩

/-- C3 amended, the positive part: under the bound `housing_rental ≤
housing_total` per source tract (which the claim's own premise of a
legitimate zero-population region presumes), a zero aggregated
denominator forces a zero numerator and the metric is NaN, with no error
raised anywhere (every operation is total). -/
theorem pct_rental_zero_denom_nan (ty : ℚ) (inputs : List TractCover)
    (hv : ∀ tc ∈ inputs, Valid2020 tc) (row : AggRow)
    (hrow : row ∈ by_hist_district ty inputs)
    (hden : row.vals .housing_total = PVal.num 0) :
    pct_rental row = PVal.nan := by
  obtain ⟨k, hk, rfl⟩ := mem_by_hist_district hrow
  dsimp only at hden
  set rs := ((realloc ty inputs).map fillTot).filter
    (fun r => r.key = k) with hrs
  have hmem : ∀ r ∈ rs, r ∈ (realloc ty inputs).map fillTot :=
    fun r hr => (List.mem_filter.mp hr).1
  obtain ⟨N, D, hN, hD, h0, h1⟩ := group_sums_bound rs
    (fun r => r.vals .housing_rental) (fun r => r.vals .housing_total)
    (fun r hr => (valid_row_pairs hv r (hmem r hr)).2)
  rw [hD] at hden
  have hD0 : D = 0 := by
    have := PVal.num.injEq D 0
    rw [this] at hden
    exact hden
  have hN0 : N = 0 := le_antisymm (hD0 ▸ h1) h0
  dsimp only [pct_rental]
  rw [hN, hD, hN0, hD0]
  simp [PVal.mul, PVal.div, PVal.inv]

/-- The concrete input of the C3 counterexample: a tract with
`housing_total = 0` but `housing_rental = 5` (both valid non-negative
inputs by the stated input contract). -/
def i3 : TractCover :=
  ⟨⟨"t1", 100, mkRow 10 4 0 0 5⟩, [(⟨"D1", PVal.num 1990⟩, 100)], 0⟩

/-- C3 counterexample: with a zero denominator but non-zero numerator the
derived metric is `+inf`, not NaN — pandas/numpy float division by zero
yields a signed infinity unless the numerator is zero too. -/
theorem pct_rental_zero_denom_inf_cex :
    ((by_hist_district 2023 [i3]).map fun a =>
      (a.vals .housing_total, pct_rental a)) = [(PVal.num 0, PVal.inf)] ∧
      PVal.inf ≠ PVal.nan := by
  constructor
  · simp [by_hist_district, groupKeys, realloc, slices, slicesOfTract, i3,
      reallocOfSlice, fillTot, ReallocRow.key, tot_years, area_share,
      PopRow.col, pct_rental, mkRow, PVal.div, PVal.inv, PVal.mul, PVal.sub,
      PVal.neg, PVal.add, nansum, List.filter_cons]
  · intro h
    exact PVal.noConfusion h

/-- The concrete input of the C3 witness: a tract with
`housing_total = housing_rental = 0`. -/
def i3w : TractCover :=
  ⟨⟨"t1", 100, mkRow 10 4 0 0 0⟩, [(⟨"D1", PVal.num 1990⟩, 100)], 0⟩

/-- Witness for C3 (amended): a zero denominator with the bound intact
yields NaN, and the pipeline runs to completion on that input. -/
theorem pct_rental_zero_denom_nan_witness :
    (∀ tc ∈ [i3w], Valid2020 tc) ∧
      ((by_hist_district 2023 [i3w]).map fun a => pct_rental a) = [PVal.nan] := by
  have hv : ∀ tc ∈ [i3w], Valid2020 tc := by
    intro tc htc
    rcases List.mem_singleton.mp htc with rfl
    refine ⟨by norm_num [i3w], by norm_num [i3w], ?_,
      10, 4, 0, 0, 0, rfl, by norm_num, by norm_num, by norm_num, by norm_num⟩
    intro p hp
    rcases List.mem_singleton.mp hp with rfl
    norm_num
  refine ⟨hv, ?_⟩
  have hproj : (by_hist_district 2023 [i3w]).map
      (fun a => a.vals .housing_total) = [PVal.num 0] := by
    simp [by_hist_district, groupKeys, realloc, slices, slicesOfTract, i3w,
      reallocOfSlice, fillTot, ReallocRow.key, tot_years, area_share,
      PopRow.col, mkRow, PVal.div, PVal.inv, PVal.mul, PVal.sub,
      PVal.neg, PVal.add, nansum, List.filter_cons]
  cases hebh : by_hist_district 2023 [i3w] with
  | nil =>
    rw [hebh] at hproj
    simp at hproj
  | cons r t =>
    cases t with
    | cons r2 t2 =>
      rw [hebh] at hproj
      simp at hproj
    | nil =>
      rw [hebh] at hproj
      simp only [List.map_cons, List.map_nil, List.cons.injEq, and_true] at hproj
      have hr : r ∈ by_hist_district 2023 [i3w] := by
        rw [hebh]
        exact List.mem_cons_self r []
      rw [List.map_cons, List.map_nil,
        pct_rental_zero_denom_nan 2023 [i3w] hv r hr hproj]


/-! ## Union-mode sentinel conservation (C6) -/

theorem fillTot_tyrs_ne_nan (r : ReallocRow) : (fillTot r).tyrs ≠ PVal.nan := by
  by_cases h : r.tyrs = PVal.nan
  · simp [fillTot, h]
  · simp [fillTot, h]

@[simp] theorem nansum_single (x : ℚ) : nansum [PVal.num x] = PVal.num x := by
  simp [nansum, PVal.add]

theorem nansum_map_num_id (xs : List ℚ) :
    nansum (xs.map PVal.num) = PVal.num xs.sum := by
  have h := nansum_map_num (fun x : ℚ => x) xs
  simpa using h

/-- In a list whose keys are pairwise distinct, filtering by the key of a
member recovers exactly that member. -/
theorem filter_key_singleton {R K : Type} [DecidableEq K] (key : R → K)
    (rows : List R) (hnd : (rows.map key).Nodup) {r : R} (hr : r ∈ rows) :
    rows.filter (fun x => key x = key r) = [r] := by
  induction rows with
  | nil => cases hr
  | cons x xs ih =>
    simp only [List.map_cons, List.nodup_cons] at hnd
    rcases List.mem_cons.mp hr with rfl | hr2
    · rw [List.filter_cons_of_pos (by simp)]
      have hnil : xs.filter (fun y => key y = key r) = [] := by
        rw [List.filter_eq_nil_iff]
        intro y hy hcon
        have hky : key y = key r := by simpa using hcon
        exact hnd.1 (hky ▸ List.mem_map_of_mem key hy)
      rw [hnil]
    · have hne : key x ≠ key r := fun h =>
        hnd.1 (h ▸ List.mem_map_of_mem key hr2)
      rw [List.filter_cons_of_neg (by simpa using hne)]
      exact ih hnd.2 hr2

/-- When all group keys are pairwise distinct, the grouped table is the
realloc table row for row, each group sum ranging over a single row. -/
theorem by_hist_district_of_nodup_keys (ty : ℚ) (inputs : List TractCover)
    (hnd : (((realloc ty inputs).map fillTot).map ReallocRow.key).Nodup) :
    by_hist_district ty inputs = ((realloc ty inputs).map fillTot).map
      (fun r => ⟨r.key.1, r.key.2, fun c => nansum [r.vals c]⟩) := by
  simp only [by_hist_district, groupKeys]
  have hfe : (((realloc ty inputs).map fillTot).map ReallocRow.key).filter
      (fun k => k.2 ≠ PVal.nan) =
      ((realloc ty inputs).map fillTot).map ReallocRow.key := by
    rw [List.filter_eq_self]
    intro k hk
    obtain ⟨r, hr, rfl⟩ := List.mem_map.mp hk
    obtain ⟨r0, hr0, rfl⟩ := List.mem_map.mp hr
    simpa using fillTot_tyrs_ne_nan r0
  rw [hfe, List.dedup_eq_self.mpr hnd, List.map_map]
  apply List.map_congr_left
  intro r hr
  simp only [Function.comp]
  have hsingle := filter_key_singleton ReallocRow.key _ hnd hr
  congr 1
  funext c
  rw [hsingle]
  rfl

/-- C6: union-mode overlay — source area not covered by any district is
attributed to the `'NA'` sentinel; the sentinel is a retained group key
holding the uncovered share of each attribute, and the attribute total
over all groups, sentinel included, equals the source value exactly. -/
theorem union_sentinel_conservation (ty : ℚ) (tc : TractCover) (c : Col) (q : ℚ)
    (hA : tc.tract.tract_area ≠ 0)
    (hq : tc.tract.row.col c = PVal.num q)
    (hcov : (tc.cover.map Prod.snd).sum + tc.uncov = tc.tract.tract_area)
    (hu : 0 < tc.uncov)
    (hnd : (tc.cover.map fun p => p.1.hid).Nodup)
    (hna : ∀ p ∈ tc.cover, p.1.hid ≠ "NA") :
    (∃ row ∈ by_hist_district ty [tc], row.hist_district_ID = "NA" ∧
      row.tyrs = PVal.num (-666666) ∧
      row.vals c = PVal.num (q * (tc.uncov / tc.tract.tract_area))) ∧
    nansum ((by_hist_district ty [tc]).map fun row => row.vals c) =
      PVal.num q := by
  have hdiv : ∀ a : ℚ, (PVal.num a).div (PVal.num tc.tract.tract_area) =
      PVal.num (a / tc.tract.tract_area) := fun a => PVal.num_div_num a _ hA
  have hsl : slicesOfTract ty tc =
      (tc.cover.map fun p => (⟨tc.tract.geoid, p.1.hid, tot_years ty p.1, p.2,
        tc.tract.tract_area, tc.tract.row⟩ : Slice)) ++
      [⟨tc.tract.geoid, "NA", PVal.nan, tc.uncov,
        tc.tract.tract_area, tc.tract.row⟩] := by
    simp [slicesOfTract, if_pos hu]
  have hrows : (realloc ty [tc]).map fillTot =
      (slicesOfTract ty tc).map (fun s => fillTot (reallocOfSlice s)) := by
    simp [realloc, slices, List.map_map]
  have hkfst : (((realloc ty [tc]).map fillTot).map ReallocRow.key).map
      Prod.fst = (tc.cover.map fun p => p.1.hid) ++ ["NA"] := by
    rw [hrows, hsl]
    simp [List.map_map, List.map_append, Function.comp, fillTot,
      reallocOfSlice, ReallocRow.key]
  have hndk : (((realloc ty [tc]).map fillTot).map ReallocRow.key).Nodup := by
    apply List.Nodup.of_map Prod.fst
    rw [hkfst]
    refine List.Nodup.append hnd (List.nodup_singleton "NA") ?_
    intro a ha hb
    rcases List.mem_singleton.mp hb with rfl
    obtain ⟨p, hp, hpe⟩ := List.mem_map.mp ha
    exact hna p hp hpe
  have hbh := by_hist_district_of_nodup_keys ty [tc] hndk
  have hproj : ((by_hist_district ty [tc]).map fun row => row.vals c) =
      ((tc.cover.map fun p => q * (p.2 / tc.tract.tract_area)) ++
        [q * (tc.uncov / tc.tract.tract_area)]).map PVal.num := by
    rw [hbh, hrows, hsl]
    simp only [List.map_map, List.map_append, List.map_cons, List.map_nil,
      Function.comp]
    congr 1
    · apply List.map_congr_left
      intro p hp
      simp [fillTot_vals, reallocOfSlice, area_share, hq, hdiv]
    · simp [fillTot_vals, reallocOfSlice, area_share, hq, hdiv]
  constructor
  · refine ⟨⟨"NA", PVal.num (-666666), fun c0 =>
      nansum [(fillTot (reallocOfSlice ⟨tc.tract.geoid, "NA", PVal.nan,
        tc.uncov, tc.tract.tract_area, tc.tract.row⟩)).vals c0]⟩,
      ?_, rfl, rfl, ?_⟩
    · rw [hbh]
      have hmemNA : (⟨tc.tract.geoid, "NA", PVal.nan, tc.uncov,
          tc.tract.tract_area, tc.tract.row⟩ : Slice) ∈ slicesOfTract ty tc := by
        rw [hsl]
        exact List.mem_append_right _ (List.mem_singleton.mpr rfl)
      have hmemR : fillTot (reallocOfSlice ⟨tc.tract.geoid, "NA", PVal.nan,
          tc.uncov, tc.tract.tract_area, tc.tract.row⟩) ∈
          (realloc ty [tc]).map fillTot := by
        rw [hrows]
        exact List.mem_map_of_mem _ hmemNA
      have := List.mem_map_of_mem (fun r : ReallocRow =>
        (⟨r.key.1, r.key.2, fun c0 => nansum [r.vals c0]⟩ : AggRow)) hmemR
      convert this using 2
    · rw [fillTot_vals]
      show nansum [(reallocOfSlice ⟨tc.tract.geoid, "NA", PVal.nan, tc.uncov,
        tc.tract.tract_area, tc.tract.row⟩).vals c] =
        PVal.num (q * (tc.uncov / tc.tract.tract_area))
      simp [reallocOfSlice, area_share, hq, hdiv]
  · rw [hproj, nansum_map_num_id, List.sum_append, List.sum_cons,
      List.sum_nil, sum_scale]
    rw [show q * (tc.cover.map Prod.snd).sum / tc.tract.tract_area +
      (q * (tc.uncov / tc.tract.tract_area) + 0) =
      q * (((tc.cover.map Prod.snd).sum + tc.uncov) / tc.tract.tract_area)
      from by ring]
    rw [hcov, div_self hA, mul_one]


/-- The concrete input of the C6 witness: scenario B — a district covers
70 of the tract's 100 area, leaving 30 uncovered. -/
def w6tc : TractCover :=
  ⟨⟨"t1", 100, mkRow 100 40 50 20 30⟩, [(⟨"D1", PVal.num 1990⟩, 70)], 30⟩

/-- Witness for C6: the sentinel row receives `pop_total = 30` and the
total over all groups, sentinel included, is 100. -/
theorem union_sentinel_conservation_witness :
    (∃ row ∈ by_hist_district 2023 [w6tc], row.hist_district_ID = "NA" ∧
      row.tyrs = PVal.num (-666666) ∧ row.vals .pop_total = PVal.num 30) ∧
    nansum ((by_hist_district 2023 [w6tc]).map fun row => row.vals .pop_total) =
      PVal.num 100 := by
  have h := union_sentinel_conservation 2023 w6tc .pop_total 100
    (by norm_num [w6tc]) (by simp [w6tc, mkRowQ]) (by norm_num [w6tc])
    (by norm_num [w6tc]) (by simp [w6tc]) (by simp [w6tc])
  obtain ⟨⟨row, hmem, h1, h2, h3⟩, h4⟩ := h
  refine ⟨⟨row, hmem, h1, h2, ?_⟩, h4⟩
  rw [h3]
  norm_num [w6tc]

end DCHist
